import Mathlib

/-!
Verification of the WeightAPI serial weight-scale bridge (src/weightapi.py).

The development shallowly embeds the core of the program:
  * the pattern frame extractor (regex `[+-]\d+[A-Za-z]` via `re.findall` /
    `re.search`), as `findMatches`, `has_complete_reading`,
    `extract_weight_reading`;
  * the reading decoder `parse_weight_data`;
  * one cycle of the continuous reading loop `read_serial_data_continuous`,
    as `loopStep` / `runLoop`;
  * the bounded read `read_from_serial_with_timeout`, with the device state
    (open flag, timeout setting, other configuration) made explicit and the
    passage of time modelled as one tick per polling iteration;
  * the health endpoint `health_check`.

Python strings are embedded as `List Char`; Python floats are embedded as
exact rationals (`ℚ`); fallible operations (indexing, `int(...)`,
`float(...)`) return `Option`, and the `try/except` wrapper of
`parse_weight_data` is the `Option` failure propagation.
-/

/-- Character-class test for the regex class `\d` (ASCII digits), i.e.
`Char.isDigit`. Kept as an abbreviation so definitions read like the regex. -/
def isDigitChar (c : Char) : Bool := c.isDigit

/-- Character-class test for the regex class `[A-Za-z]`, i.e. `Char.isAlpha`. -/
def isAlphaChar (c : Char) : Bool := c.isAlpha

/-- Positional value of a digit string, the integer a run of ASCII digits
denotes (used to state what Python's `float(...)` returns on a digit run). -/
def digitsVal (l : List Char) : ℕ :=
  l.foldl (fun a c => 10 * a + (c.toNat - 48)) 0

/-- Embedding of Python `float(s)` restricted to the digit strings the decoder
feeds it: fails (raises, i.e. `none`) on an empty or non-digit string,
otherwise returns the denoted integer exactly. -/
def parseDigits (l : List Char) : Option ℕ :=
  if !l.isEmpty && l.all isDigitChar then some (digitsVal l) else none

/-- Embedding of Python `int(c)` on a single character: the digit value, or a
raised `ValueError` (`none`) on a non-digit. -/
def charDigit (c : Char) : Option ℕ :=
  if isDigitChar c then some (c.toNat - 48) else none

/-- Embedding of `numeric_part.lstrip('0') or '0'` from `parse_weight_data`:
strip leading zeros, an all-zero (or empty) run collapsing to `"0"`. -/
def stripZeros (l : List Char) : List Char :=
  let s := l.dropWhile (fun c => c == '0')
  if s.isEmpty then ['0'] else s

/-- One attempt of the regex `[+-]\d+[A-Za-z]` anchored at the head of the
list: a sign character, a maximal nonempty digit run, then a letter. Returns
the matched span and the remainder after it. Since digits and letters are
disjoint classes, greedy matching with backtracking coincides with taking the
maximal digit run and requiring a letter right after it. -/
def matchAt : List Char → Option (List Char × List Char)
  | [] => none
  | c :: rest =>
    if c == '+' || c == '-' then
      match rest.dropWhile isDigitChar with
      | [] => none
      | d :: rest3 =>
        if !(rest.takeWhile isDigitChar).isEmpty && isAlphaChar d then
          some (c :: (rest.takeWhile isDigitChar ++ [d]), rest3)
        else none
    else none

/-- Worker for `findMatches`: scan left to right, trying the pattern at each
position and resuming after the end of each match, exactly as `re.findall`
does for this regex. The fuel argument (initially the list length) only
bounds the recursion; each step consumes at least one character. -/
def findMatchesAux : ℕ → List Char → List (List Char)
  | 0, _ => []
  | _ + 1, [] => []
  | n + 1, c :: rest =>
    match matchAt (c :: rest) with
    | some (m, after) => m :: findMatchesAux n after
    | none => findMatchesAux n rest

/-- Embedding of `re.findall(r'[+-]\d+[A-Za-z]', s)`. -/
def findMatches (l : List Char) : List (List Char) :=
  findMatchesAux l.length l

/-- Embedding of `has_complete_reading`: `re.search(r'[+-]\d+[A-Za-z]', buffer)
is not None`. -/
def has_complete_reading (buffer : List Char) : Bool :=
  !(findMatches buffer).isEmpty

/-- Embedding of `extract_weight_reading`: `matches[0] if matches else None`. -/
def extract_weight_reading (buffer : List Char) : Option (List Char) :=
  (findMatches buffer).head?

/-- Body of `parse_weight_data` applied to the first regex match
`weight_string`: split into sign (`weight_string[0]`), status character
(`weight_string[-1].upper()`), decimal-place count (`int(weight_string[-2])`),
and numeric part (`weight_string[1:-2]`); strip leading zeros (collapsing to
`"0"`); convert, negate on `'-'`, scale by `10 ** decimal_digits`, and map
status through the stable set `['B', 'C']`. Any failing step is a raised
exception, i.e. `none`. -/
def decodeMatch (weight_string : List Char) : Option (ℚ × Bool × List Char) :=
  match weight_string.head?, weight_string.dropLast.getLast?,
        weight_string.getLast? with
  | some sign_char, some dec_char, some status_raw =>
    match charDigit dec_char with
    | some decimal_digits =>
      let status_char := status_raw.toUpper
      let numeric_part := (weight_string.drop 1).dropLast.dropLast
      let clean_numeric := stripZeros numeric_part
      match parseDigits clean_numeric with
      | some mag =>
        let weight_value : ℚ := if sign_char == '-' then -(mag : ℚ) else (mag : ℚ)
        let weight_kg : ℚ := weight_value / (10 : ℚ) ^ decimal_digits
        let is_stable : Bool := status_char == 'B' || status_char == 'C'
        some (weight_kg, is_stable, weight_string)
      | none => none
    | none => none
  | _, _, _ => none

/-- Embedding of `parse_weight_data`: find all regex matches; with no match
return the no-value signal; otherwise decode the first match, the
`try/except` returning the no-value signal if any step raises. -/
def parse_weight_data (raw_data : List Char) : Option (ℚ × Bool × List Char) :=
  match findMatches raw_data with
  | [] => none
  | weight_string :: _ => decodeMatch weight_string

/-- Events seen by one polling iteration of `read_from_serial_with_timeout`:
either some bytes are available and the read succeeds, or the read (or any
other statement inside the inner try) raises. An exhausted script means no
data is waiting. -/
inductive PollEvent where
  | data (chunk : List Char)
  | fault
deriving DecidableEq

/-- State of the serial device handle that the program shares: whether the
port is open, the mutable per-read timeout setting, and the remaining fixed
configuration (represented by the baud rate), which the bounded read must not
touch. -/
structure SerialPort where
  isOpen : Bool
  timeout : ℚ
  baudRate : ℕ
deriving DecidableEq

deriving instance DecidableEq for Except

/-- Outcome of the bounded read `read_from_serial_with_timeout`: the returned
value or raised error, the number of polling iterations that elapsed before
returning, and the device state at exit. -/
structure ReadOutcome where
  result : Except String (Option (List Char))
  iters : ℕ
  port : SerialPort
deriving DecidableEq

/-- Polling loop of `read_from_serial_with_timeout` under a discrete clock:
each iteration of `while (time.time() - start_time) < timeout` costs one tick,
so the first argument is the number of iterations that still start before the
deadline. One iteration reads available data into the buffer and returns the
first complete reading if one is present; an exception anywhere in the
iteration is swallowed by the inner `except Exception: continue`; otherwise
the iteration sleeps and polling continues. Returns the token (or `none` at
deadline) and the number of iterations consumed. -/
def pollLoop : ℕ → List Char → List PollEvent → Option (List Char) × ℕ
  | 0, _, _ => (none, 0)
  | n + 1, buffer, [] =>
    let p := pollLoop n buffer []
    (p.1, p.2 + 1)
  | n + 1, buffer, PollEvent.fault :: rest =>
    let p := pollLoop n buffer rest
    (p.1, p.2 + 1)
  | n + 1, buffer, PollEvent.data chunk :: rest =>
    let buf := buffer ++ chunk
    if has_complete_reading buf then
      match extract_weight_reading buf with
      | some tok => (some tok, 1)
      | none =>
        let p := pollLoop n buf rest
        (p.1, p.2 + 1)
    else
      let p := pollLoop n buf rest
      (p.1, p.2 + 1)

/-- Number of iterations of the polling loop that start before a deadline of
`timeout` ticks when each iteration costs `delta` ticks: the iteration at
elapsed time `i * delta` runs exactly when `i * delta < timeout`. -/
def numIterations (timeout delta : ℕ) : ℕ :=
  (timeout + delta - 1) / delta

/-- Embedding of `read_from_serial_with_timeout`: raise `SerialException`
when the port is absent or closed; otherwise save the device timeout setting,
tighten it for the polling loop, poll until a complete reading or the
deadline, and restore the saved setting on the way out (the `finally`
block). `timeout` and `delta` are the overall deadline and the per-iteration
cost in abstract clock ticks. -/
def read_from_serial_with_timeout (port : SerialPort) (timeout delta : ℕ)
    (script : List PollEvent) : ReadOutcome :=
  if port.isOpen then
    let original_timeout := port.timeout
    let port1 : SerialPort := { port with timeout := 1 / 10 }
    let p := pollLoop (numIterations timeout delta) [] script
    { result := Except.ok p.1, iters := p.2,
      port := { port1 with timeout := original_timeout } }
  else
    { result := Except.error "Serial port not available or not open",
      iters := 0, port := port }

/-- Events seen by one cycle of the continuous reading loop
`read_serial_data_continuous`: bytes waiting (and read successfully), nothing
waiting, a raised `SerialException`, or any other raised exception. -/
inductive LoopEvent where
  | data (chunk : List Char)
  | noData
  | serialError
  | otherError
deriving DecidableEq

/-- State the continuous loop carries across cycles: the accumulation buffer
and the consecutive error counter. -/
structure LoopState where
  buffer : List Char
  consecutiveErrors : ℕ
deriving DecidableEq

/-- What a cycle of the continuous loop does next: proceed to the next cycle
after the short poll sleep, retry after the longer error backoff sleep, or
leave the loop (the `break` on too many consecutive errors). -/
inductive LoopAction where
  | cont
  | backoff
  | fatalStop
deriving DecidableEq

/-- Result of one cycle of the continuous loop: the new state, the control
action, and whether the cycle invoked the recovery procedure
`restart_serial_connection` (the loop body contains no such call, so this
field is always false; it is made explicit so that claims about recovery can
be stated). -/
structure LoopOutcome where
  state : LoopState
  action : LoopAction
  triggersRecovery : Bool
deriving DecidableEq

/-- Threshold `max_consecutive_errors` of `read_serial_data_continuous`. -/
def max_consecutive_errors : ℕ := 5

/-- One cycle of the `while not should_stop_serial_thread` body of
`read_serial_data_continuous`: on available data, append to the buffer and,
if a complete reading is present, extract it, parse it, display it, clear the
buffer and reset the error counter; on no data, just sleep; on an exception,
increment the error counter and either break out of the loop (counter at the
threshold) or sleep the longer backoff and continue. -/
def loopStep (st : LoopState) (ev : LoopEvent) : LoopOutcome :=
  match ev with
  | LoopEvent.data chunk =>
    let buf := st.buffer ++ chunk
    if has_complete_reading buf then
      match extract_weight_reading buf with
      | some cleaned_data =>
        let _ := parse_weight_data cleaned_data
        { state := { buffer := [], consecutiveErrors := 0 },
          action := LoopAction.cont, triggersRecovery := false }
      | none =>
        { state := { buffer := buf, consecutiveErrors := st.consecutiveErrors },
          action := LoopAction.cont, triggersRecovery := false }
    else
      { state := { buffer := buf, consecutiveErrors := st.consecutiveErrors },
        action := LoopAction.cont, triggersRecovery := false }
  | LoopEvent.noData =>
    { state := st, action := LoopAction.cont, triggersRecovery := false }
  | LoopEvent.serialError =>
    if st.consecutiveErrors + 1 ≥ max_consecutive_errors then
      { state := { buffer := st.buffer,
                   consecutiveErrors := st.consecutiveErrors + 1 },
        action := LoopAction.fatalStop, triggersRecovery := false }
    else
      { state := { buffer := st.buffer,
                   consecutiveErrors := st.consecutiveErrors + 1 },
        action := LoopAction.backoff, triggersRecovery := false }
  | LoopEvent.otherError =>
    if st.consecutiveErrors + 1 ≥ max_consecutive_errors then
      { state := { buffer := st.buffer,
                   consecutiveErrors := st.consecutiveErrors + 1 },
        action := LoopAction.fatalStop, triggersRecovery := false }
    else
      { state := { buffer := st.buffer,
                   consecutiveErrors := st.consecutiveErrors + 1 },
        action := LoopAction.backoff, triggersRecovery := false }

/-- Run the continuous loop over a finite event trace, stopping early on the
fatal break. Returns the final state and whether the loop exited fatally. -/
def runLoop (st : LoopState) : List LoopEvent → LoopState × Bool
  | [] => (st, false)
  | ev :: rest =>
    let o := loopStep st ev
    match o.action with
    | LoopAction.fatalStop => (o.state, true)
    | _ => runLoop o.state rest

/-- Three-level status reported by the health endpoint. -/
inductive HealthStatus where
  | healthy
  | degraded
  | unhealthy
deriving DecidableEq

/-- Probe used by the health check: `read_from_serial_with_timeout` returned
a reading (`test_data is not None`). -/
def scale_probe (port : SerialPort) (timeout delta : ℕ)
    (script : List PollEvent) : Bool :=
  match (read_from_serial_with_timeout port timeout delta script).result with
  | Except.ok (some _) => true
  | _ => false

/-- Embedding of the status computation of `health_check`: the connected flag
is the port being open; the thread flag and the probe are only evaluated in
the connected branch (they default to false otherwise); the overall status is
healthy when all three flags hold, degraded when only the connected flag
holds, unhealthy otherwise. -/
def health_check (port : SerialPort) (threadAlive : Bool) (timeout delta : ℕ)
    (script : List PollEvent) : HealthStatus :=
  let serial_port_connected := port.isOpen
  let serial_thread_alive := serial_port_connected && threadAlive
  let scale_responding :=
    if serial_port_connected then scale_probe port timeout delta script
    else false
  if serial_port_connected && scale_responding && serial_thread_alive then
    HealthStatus.healthy
  else if serial_port_connected then
    HealthStatus.degraded
  else
    HealthStatus.unhealthy

/-- ASCII letters are never ASCII digits; the two regex character classes are
disjoint, so greedy digit matching stops exactly at the status letter. -/
theorem isAlpha_isDigit_false (c : Char) (h : c.isAlpha = true) :
    c.isDigit = false := by
  simp [Char.isAlpha, Char.isUpper, Char.isLower, Char.isDigit,
    UInt32.le_def, UInt32.lt_def, BitVec.le_def, BitVec.lt_def] at *
  omega

/-- Dropping leading zero characters does not change the denoted integer. -/
theorem digitsVal_dropZeros (l : List Char) :
    digitsVal (l.dropWhile (fun c => c == '0')) = digitsVal l := by
  induction l with
  | nil => rfl
  | cons c t ih =>
    by_cases hc : (c == '0') = true
    · have hc0 : c = '0' := by simpa using hc
      subst hc0
      have h1 : ('0' :: t).dropWhile (fun c => c == '0')
          = t.dropWhile (fun c => c == '0') := by
        simp [List.dropWhile]
      have h2 : digitsVal ('0' :: t) = digitsVal t := rfl
      rw [h1, ih, h2]
    · simp [List.dropWhile, hc]

/-- Every element property is preserved by dropWhile. -/
theorem all_dropWhile (p q : Char → Bool) (l : List Char)
    (h : l.all p = true) : (l.dropWhile q).all p = true := by
  rw [List.all_eq_true] at h ⊢
  intro x hx
  exact h x ((List.dropWhile_sublist q).subset hx)

/-- Every element property is preserved by dropLast. -/
theorem all_dropLast (p : Char → Bool) (l : List Char)
    (h : l.all p = true) : l.dropLast.all p = true := by
  rw [List.all_eq_true] at h ⊢
  intro x hx
  exact h x ((List.dropLast_sublist l).subset hx)

/-- On an all-digit run, `lstrip('0') or '0'` followed by the numeric parse
succeeds and returns the run's denoted integer (an all-zero run collapses to
zero). -/
theorem parseDigits_stripZeros (l : List Char) (h : l.all isDigitChar = true) :
    parseDigits (stripZeros l) = some (digitsVal l) := by
  unfold stripZeros
  by_cases hs : (l.dropWhile (fun c => c == '0')).isEmpty = true
  · have hnil : l.dropWhile (fun c => c == '0') = [] := by
      simpa [List.isEmpty_iff] using hs
    have hv : digitsVal l = 0 := by
      rw [← digitsVal_dropZeros l, hnil]; rfl
    rw [if_pos hs, hv]
    decide
  · have he : (l.dropWhile (fun c => c == '0')).isEmpty = false := by
      simpa using hs
    have hall : (l.dropWhile (fun c => c == '0')).all isDigitChar = true :=
      all_dropWhile _ _ _ h
    rw [if_neg hs]
    simp [parseDigits, he, hall, digitsVal_dropZeros l]

/-- Any successful anchored match consists of a sign character, a nonempty
all-digit run, and one trailing letter. -/
theorem matchAt_some_shape {l m after : List Char}
    (h : matchAt l = some (m, after)) :
    ∃ c D d, m = c :: (D ++ [d]) ∧ D ≠ [] ∧ D.all isDigitChar = true ∧
      isAlphaChar d = true := by
  cases l with
  | nil => simp [matchAt] at h
  | cons c rest =>
    simp only [matchAt] at h
    split at h
    · split at h
      · simp at h
      · split at h
        · rename_i hcond
          simp only [Option.some.injEq, Prod.mk.injEq] at h
          obtain ⟨hm, -⟩ := h
          obtain ⟨h1, h2⟩ := Bool.and_eq_true_iff.mp hcond
          refine ⟨c, rest.takeWhile isDigitChar, _, hm.symm, ?_, ?_, h2⟩
          · simpa [List.isEmpty_iff] using h1
          · exact List.all_takeWhile
        · simp at h
    · simp at h

/-- The anchored pattern matches a well-formed token whole, leaving nothing. -/
theorem matchAt_token (sgn dc st : Char) (digits : List Char)
    (hs : sgn = '+' ∨ sgn = '-') (hall : digits.all isDigitChar = true)
    (hdc : isDigitChar dc = true) (hst : isAlphaChar st = true) :
    matchAt (sgn :: (digits ++ [dc, st]))
      = some (sgn :: (digits ++ [dc, st]), []) := by
  have hsgn : (sgn == '+' || sgn == '-') = true := by
    rcases hs with h | h <;> simp [h]
  have hdig : ∀ a ∈ digits ++ [dc], isDigitChar a = true := by
    intro a ha
    rcases List.mem_append.mp ha with ha | ha
    · exact List.all_eq_true.mp hall a ha
    · have : a = dc := by simpa using ha
      rw [this]; exact hdc
  have hstd : isDigitChar st = false := by
    have := isAlpha_isDigit_false st (by simpa [isAlphaChar] using hst)
    simpa [isDigitChar] using this
  have hsplit : digits ++ [dc, st] = (digits ++ [dc]) ++ [st] := by simp
  have htake : (digits ++ [dc, st]).takeWhile isDigitChar = digits ++ [dc] := by
    rw [hsplit, List.takeWhile_append_of_pos hdig]
    simp [List.takeWhile, hstd]
  have hdrop : (digits ++ [dc, st]).dropWhile isDigitChar = [st] := by
    rw [hsplit, List.dropWhile_append_of_pos hdig]
    simp [List.dropWhile, hstd]
  simp only [matchAt]
  rw [if_pos hsgn, hdrop, htake]
  simp [hst]

/-- Scanning an empty buffer yields no matches at any fuel. -/
theorem findMatchesAux_nil (fuel : ℕ) : findMatchesAux fuel [] = [] := by
  cases fuel <;> rfl

/-- On a single well-formed token the extractor returns exactly that token. -/
theorem findMatches_token (sgn dc st : Char) (digits : List Char)
    (hs : sgn = '+' ∨ sgn = '-') (hall : digits.all isDigitChar = true)
    (hdc : isDigitChar dc = true) (hst : isAlphaChar st = true) :
    findMatches (sgn :: (digits ++ [dc, st])) = [sgn :: (digits ++ [dc, st])] := by
  unfold findMatches
  rw [List.length_cons]
  rw [findMatchesAux, matchAt_token sgn dc st digits hs hall hdc hst]
  simp [findMatchesAux_nil]

/-- Full evaluation of the decode body on a matched span written as sign
character, magnitude run `E`, decimal-count digit `dc`, status character `d`:
the result is the integer value of `E` (leading zeros stripped, empty run
collapsing to zero), negated on a minus sign, scaled by `10 ^ dc`, with the
upcased status tested against the stable set. -/
theorem decodeMatch_shape (c dc d : Char) (E : List Char)
    (hall : E.all isDigitChar = true) (hdc : isDigitChar dc = true) :
    decodeMatch (c :: (E ++ [dc] ++ [d])) =
      some ((if c == '-' then -(digitsVal E : ℚ) else (digitsVal E : ℚ))
              / (10 : ℚ) ^ (dc.toNat - 48),
            d.toUpper == 'B' || d.toUpper == 'C',
            c :: (E ++ [dc] ++ [d])) := by
  have hhead : (c :: (E ++ [dc] ++ [d])).head? = some c := rfl
  have hlast : (c :: (E ++ [dc] ++ [d])).getLast? = some d := by
    rw [← List.cons_append, List.getLast?_concat]
  have hdropLast : (c :: (E ++ [dc] ++ [d])).dropLast = c :: (E ++ [dc]) := by
    rw [← List.cons_append, List.dropLast_concat]
  have hdec : (c :: (E ++ [dc])).getLast? = some dc := by
    rw [← List.cons_append, List.getLast?_concat]
  have hnum : ((c :: (E ++ [dc] ++ [d])).drop 1).dropLast.dropLast = E := by
    simp only [List.drop_succ_cons, List.drop_zero, List.dropLast_concat]
  have hcd : charDigit dc = some (dc.toNat - 48) := by
    simp [charDigit, hdc]
  simp only [decodeMatch, hhead, hdropLast, hdec, hlast, hnum, hcd,
    parseDigits_stripZeros E hall]

/-- Full evaluation of the decoder on a well-formed token
sign, digit run, decimal-count digit, status letter. -/
theorem parse_weight_data_token (sgn dc st : Char) (digits : List Char)
    (hs : sgn = '+' ∨ sgn = '-') (hall : digits.all isDigitChar = true)
    (hdc : isDigitChar dc = true) (hst : isAlphaChar st = true) :
    parse_weight_data (sgn :: (digits ++ [dc, st])) =
      some ((if sgn == '-' then -(digitsVal digits : ℚ) else (digitsVal digits : ℚ))
              / (10 : ℚ) ^ (dc.toNat - 48),
            st.toUpper == 'B' || st.toUpper == 'C',
            sgn :: (digits ++ [dc, st])) := by
  have hsplit : digits ++ [dc, st] = digits ++ [dc] ++ [st] := by simp
  unfold parse_weight_data
  rw [findMatches_token sgn dc st digits hs hall hdc hst]
  rw [hsplit]
  exact decodeMatch_shape sgn dc st digits hall hdc

/-- Every match returned at the head of a scan has the sign, nonempty digit
run, letter shape. -/
theorem findMatchesAux_head_shape :
    ∀ (fuel : ℕ) (l m : List Char) (ms : List (List Char)),
    findMatchesAux fuel l = m :: ms →
    ∃ c D d, m = c :: (D ++ [d]) ∧ D ≠ [] ∧ D.all isDigitChar = true ∧
      isAlphaChar d = true := by
  intro fuel
  induction fuel with
  | zero => intro l m ms h; simp [findMatchesAux] at h
  | succ n ih =>
    intro l m ms h
    cases l with
    | nil => simp [findMatchesAux] at h
    | cons c rest =>
      rw [findMatchesAux] at h
      cases hm : matchAt (c :: rest) with
      | some pr =>
        obtain ⟨m0, after⟩ := pr
        simp only [hm, List.cons.injEq] at h
        obtain ⟨h1, -⟩ := h
        obtain ⟨c2, D, d, hsh, hne, hda, hdl⟩ := matchAt_some_shape hm
        exact ⟨c2, D, d, h1 ▸ hsh, hne, hda, hdl⟩
      | none =>
        simp only [hm] at h
        exact ih rest m ms h

/-- The decode body succeeds on every span of sign, nonempty digit run,
trailing-character shape: no step of it can raise. -/
theorem decodeMatch_isSome_of_shape (c d : Char) (D : List Char)
    (hne : D ≠ []) (hall : D.all isDigitChar = true) :
    ∃ r, decodeMatch (c :: (D ++ [d])) = some r := by
  have hD : D.dropLast ++ [D.getLast hne] = D := List.dropLast_append_getLast hne
  have hlastd : isDigitChar (D.getLast hne) = true :=
    List.all_eq_true.mp hall _ (List.getLast_mem hne)
  have halld : D.dropLast.all isDigitChar = true := all_dropLast _ _ hall
  have h := decodeMatch_shape c (D.getLast hne) d D.dropLast halld hlastd
  rw [hD] at h
  exact ⟨_, h⟩

/-- The decoder returns the no-value signal exactly when the regex finds no
match in the input; on any match it always produces a value. -/
theorem parse_weight_data_none_iff (s : List Char) :
    parse_weight_data s = none ↔ findMatches s = [] := by
  constructor
  · intro h
    cases hf : findMatches s with
    | nil => rfl
    | cons m ms =>
      obtain ⟨c, D, d, hm, hne, hda, -⟩ :=
        findMatchesAux_head_shape s.length s m ms hf
      obtain ⟨r, hr⟩ := decodeMatch_isSome_of_shape c d D hne hda
      unfold parse_weight_data at h
      rw [hf] at h
      simp only [hm, hr] at h
      exact absurd h (by simp)
  · intro h
    unfold parse_weight_data
    rw [h]

/-- The buffer test is false exactly when the scanner finds no match. -/
theorem has_complete_reading_false_iff (s : List Char) :
    has_complete_reading s = false ↔ findMatches s = [] := by
  simp [has_complete_reading, List.isEmpty_iff]

/-- Extraction returns nothing exactly when the scanner finds no match. -/
theorem extract_weight_reading_none_iff (s : List Char) :
    extract_weight_reading s = none ↔ findMatches s = [] := by
  simp [extract_weight_reading, List.head?_eq_none_iff]

/-- C1: for every token of the form sign, digit run, decimal-count digit,
status letter that the decoder accepts, the returned weight is exactly the
sign times the integer value of the digit run (leading zeros stripped, an
all-zero run collapsing to 0) divided by 10 to the decimal count; in
particular decode-then-recompute reproduces the encoded magnitude. -/
theorem parse_weight_data_exact_magnitude (sgn dc st : Char)
    (digits : List Char) (hs : sgn = '+' ∨ sgn = '-')
    (hall : digits.all isDigitChar = true) (hdc : isDigitChar dc = true)
    (hst : isAlphaChar st = true) :
    (parse_weight_data (sgn :: (digits ++ [dc, st]))).map Prod.fst =
      some ((if sgn = '-' then (-1 : ℚ) else 1) * (digitsVal digits : ℚ)
              / (10 : ℚ) ^ (dc.toNat - 48)) := by
  rw [parse_weight_data_token sgn dc st digits hs hall hdc hst]
  rcases hs with h | h <;> subst h <;> simp [Option.map_some]

/-- Witness for C1: the token "+001232B" decodes to exactly 123/100, the
leading zeros of the run "00123" stripped and the value scaled by 10 ^ 2. -/
theorem parse_weight_data_exact_magnitude_witness :
    (('+' = '+' ∨ '+' = '-') ∧ (['0', '0', '1', '2', '3'].all isDigitChar = true)
      ∧ isDigitChar '2' = true ∧ isAlphaChar 'B' = true) ∧
    (parse_weight_data ('+' :: (['0', '0', '1', '2', '3'] ++ ['2', 'B']))).map
        Prod.fst =
      some ((if '+' = '-' then (-1 : ℚ) else 1)
              * (digitsVal ['0', '0', '1', '2', '3'] : ℚ)
              / (10 : ℚ) ^ ('2'.toNat - 48)) :=
  ⟨⟨Or.inl rfl, by decide, by decide, by decide⟩,
    parse_weight_data_exact_magnitude '+' '2' 'B' ['0', '0', '1', '2', '3']
      (Or.inl rfl) (by decide) (by decide) (by decide)⟩

/-- C2 counterexample: the token "+5B", whose only digit is consumed as the
decimal-count field so that the integer digit run is empty, is NOT rejected:
the decoder returns the value 0 (stable), not the no-value signal. -/
theorem parse_weight_data_empty_run_counterexample :
    parse_weight_data ['+', '5', 'B'] = some (0, true, ['+', '5', 'B']) ∧
    parse_weight_data ['+', '5', 'B'] ≠ none := by
  have h := parse_weight_data_token '+' '5' 'B' [] (Or.inl rfl) (by decide)
    (by decide) (by decide)
  simp only [List.nil_append] at h
  have hval : parse_weight_data ['+', '5', 'B'] = some (0, true, ['+', '5', 'B']) := by
    rw [h]
    norm_num [digitsVal]
    decide
  exact ⟨hval, by rw [hval]; simp⟩

/-- C2 (amended): the decoder returns the no-value signal exactly when the
input contains no token matching the shape sign, digits, letter; an empty
integer digit run does not cause rejection (it collapses to "0" and decodes
to the value 0), and no numeric parse can fail on a matched token. -/
theorem parse_weight_data_none_iff_no_shape_match (s : List Char) :
    parse_weight_data s = none ↔ has_complete_reading s = false := by
  rw [parse_weight_data_none_iff, has_complete_reading_false_iff]

/-- C3: extraction and decoding are total functions with explicit no-value
results: the buffer test, extraction and decoding agree on failure, malformed
input yields the empty result or the no-value signal, and every input
produces either the no-value signal or a decoded value; no error escapes. -/
theorem frame_extraction_decode_total (s : List Char) :
    (has_complete_reading s = false ↔ extract_weight_reading s = none) ∧
    (parse_weight_data s = none ↔ extract_weight_reading s = none) ∧
    (parse_weight_data s = none ∨ ∃ r, parse_weight_data s = some r) := by
  refine ⟨?_, ?_, ?_⟩
  · rw [has_complete_reading_false_iff, extract_weight_reading_none_iff]
  · rw [parse_weight_data_none_iff, extract_weight_reading_none_iff]
  · cases h : parse_weight_data s with
    | none => exact Or.inl rfl
    | some r => exact Or.inr ⟨r, rfl⟩

/-- C4 counterexample: the lowercase status letter 'b' does NOT map to
unstable: the token "+1230b" decodes with isStable = true, because the
decoder upcases the status character before testing membership in the stable
set. -/
theorem status_char_lowercase_counterexample :
    (parse_weight_data ['+', '1', '2', '3', '0', 'b']).map
        (fun r => r.2.1) = some true ∧
    (parse_weight_data ['+', '1', '2', '3', '0', 'b']).map
        (fun r => r.2.1) ≠ some false := by
  constructor
  · decide
  · decide

/-- C4 (amended): for every accepted token the stability flag is computed
from the UPCASED status character: 'B', 'C', 'b' and 'c' all map to
isStable = true, and every other letter maps to false. -/
theorem status_char_upcased_stable_set (sgn dc st : Char)
    (digits : List Char) (hs : sgn = '+' ∨ sgn = '-')
    (hall : digits.all isDigitChar = true) (hdc : isDigitChar dc = true)
    (hst : isAlphaChar st = true) :
    (parse_weight_data (sgn :: (digits ++ [dc, st]))).map (fun r => r.2.1) =
      some (st.toUpper == 'B' || st.toUpper == 'C') := by
  rw [parse_weight_data_token sgn dc st digits hs hall hdc hst]
  rfl

/-- Witness for C4 (amended): on the token "-70c" the decoder reports
stable, since 'c' upcases to 'C', a member of the stable set. -/
theorem status_char_upcased_stable_set_witness :
    (('-' = '+' ∨ '-' = '-') ∧ (['7'].all isDigitChar = true)
      ∧ isDigitChar '0' = true ∧ isAlphaChar 'c' = true) ∧
    (parse_weight_data ('-' :: (['7'] ++ ['0', 'c']))).map (fun r => r.2.1) =
      some ('c'.toUpper == 'B' || 'c'.toUpper == 'C') :=
  ⟨⟨Or.inr rfl, by decide, by decide, by decide⟩,
    status_char_upcased_stable_set '-' '0' 'c' ['7']
      (Or.inr rfl) (by decide) (by decide) (by decide)⟩

/-- When the buffer test succeeds extraction returns a token. -/
theorem extract_weight_reading_isSome_of_has (s : List Char)
    (h : has_complete_reading s = true) :
    ∃ tok, extract_weight_reading s = some tok := by
  unfold has_complete_reading at h
  unfold extract_weight_reading
  cases hf : findMatches s with
  | nil => rw [hf] at h; simp at h
  | cons m ms => exact ⟨m, rfl⟩

/-- C5 counterexample: a data cycle whose bytes do not yet contain a complete
reading does NOT clear the accumulation buffer: the partial token "+1" is
retained for the next cycle. -/
theorem loop_buffer_retained_counterexample :
    (loopStep ⟨[], 0⟩ (LoopEvent.data ['+', '1'])).state.buffer = ['+', '1'] ∧
    (loopStep ⟨[], 0⟩ (LoopEvent.data ['+', '1'])).state.buffer ≠ [] := by
  constructor
  · decide
  · decide

/-- C5 (amended): after a data cycle of the continuous loop the accumulation
buffer is cleared exactly when the accumulated bytes contain a complete
reading; otherwise every partial byte is retained, so a reading split across
two read cycles is completed on the later cycle rather than lost. -/
theorem loop_buffer_cleared_iff_complete (st : LoopState) (chunk : List Char) :
    (loopStep st (LoopEvent.data chunk)).state.buffer =
      if has_complete_reading (st.buffer ++ chunk) then []
      else st.buffer ++ chunk := by
  by_cases h : has_complete_reading (st.buffer ++ chunk) = true
  · obtain ⟨tok, htok⟩ := extract_weight_reading_isSome_of_has _ h
    simp only [loopStep, h, htok, if_true]
  · have h' : has_complete_reading (st.buffer ++ chunk) = false := by
      simpa using h
    simp only [loopStep, h', if_false, Bool.false_eq_true]

/-- C6: on every exit path of the bounded read, including the raise on a
closed port and both loop outcomes, the device state at exit equals the
device state at entry: the read-timeout setting is restored and no other
shared configuration is modified. -/
theorem read_timeout_restores_port (port : SerialPort) (timeout delta : ℕ)
    (script : List PollEvent) :
    (read_from_serial_with_timeout port timeout delta script).port = port := by
  unfold read_from_serial_with_timeout
  split <;> rfl

/-- A polling run that ends in the timeout signal used every iteration the
deadline allowed. -/
theorem pollLoop_none_iters (n : ℕ) :
    ∀ (buffer : List Char) (script : List PollEvent),
    (pollLoop n buffer script).1 = none → (pollLoop n buffer script).2 = n := by
  induction n with
  | zero => intro buffer script _; rfl
  | succ n ih =>
    intro buffer script h
    match script with
    | [] =>
      simp only [pollLoop] at h ⊢
      rw [ih _ _ h]
    | PollEvent.fault :: rest =>
      simp only [pollLoop] at h ⊢
      rw [ih _ _ h]
    | PollEvent.data chunk :: rest =>
      simp only [pollLoop] at h ⊢
      by_cases hc : has_complete_reading (buffer ++ chunk) = true
      · obtain ⟨tok, htok⟩ := extract_weight_reading_isSome_of_has _ hc
        simp only [hc, htok, if_true] at h
        exact absurd h (by simp)
      · have hc' : has_complete_reading (buffer ++ chunk) = false := by
          simpa using hc
        simp only [hc', if_false, Bool.false_eq_true] at h ⊢
        rw [ih _ _ h]

/-- C7: whenever the bounded read returns the timeout signal, the time it
consumed (iterations times the per-iteration cost) is at least the requested
timeout and less than the timeout plus one polling interval; the function
always terminates and never polls past that deadline. -/
theorem read_timeout_deadline_bounds (port : SerialPort) (timeout delta : ℕ)
    (script : List PollEvent) (hdelta : 0 < delta)
    (hopen : port.isOpen = true)
    (hnone : (read_from_serial_with_timeout port timeout delta script).result
      = Except.ok none) :
    timeout ≤
      (read_from_serial_with_timeout port timeout delta script).iters * delta ∧
    (read_from_serial_with_timeout port timeout delta script).iters * delta
      < timeout + delta := by
  unfold read_from_serial_with_timeout at hnone ⊢
  rw [if_pos hopen] at hnone ⊢
  simp only [Except.ok.injEq] at hnone
  have h2 := pollLoop_none_iters _ _ _ hnone
  simp only [h2]
  unfold numIterations
  have hdm := Nat.div_add_mod (timeout + delta - 1) delta
  have hmod : (timeout + delta - 1) % delta < delta := Nat.mod_lt _ hdelta
  rw [Nat.mul_comm]
  generalize hX : delta * ((timeout + delta - 1) / delta) = X at hdm ⊢
  omega

/-- Witness for C7: with the port open, a five-tick timeout, a two-tick
polling interval and a script that only faults, the bounded read returns the
timeout signal after three iterations, and six ticks lie between the timeout
of five and the timeout plus one interval. -/
theorem read_timeout_deadline_bounds_witness :
    ((0 : ℕ) < 2 ∧ (SerialPort.mk true 2 9600).isOpen = true ∧
      (read_from_serial_with_timeout ⟨true, 2, 9600⟩ 5 2
        [PollEvent.fault]).result = Except.ok none) ∧
    (5 ≤ (read_from_serial_with_timeout ⟨true, 2, 9600⟩ 5 2
        [PollEvent.fault]).iters * 2 ∧
      (read_from_serial_with_timeout ⟨true, 2, 9600⟩ 5 2
        [PollEvent.fault]).iters * 2 < 5 + 2) :=
  ⟨⟨by decide, by decide, by decide⟩,
    read_timeout_deadline_bounds ⟨true, 2, 9600⟩ 5 2 [PollEvent.fault]
      (by decide) (by decide) (by decide)⟩

/-- Starting below the error threshold, the continuous loop never drives the
consecutive error counter past the threshold, and whenever the counter
reaches the threshold the loop has exited fatally: it never keeps reading
past the threshold. -/
theorem runLoop_error_bound (events : List LoopEvent) :
    ∀ st : LoopState, st.consecutiveErrors < max_consecutive_errors →
    (runLoop st events).1.consecutiveErrors ≤ max_consecutive_errors ∧
    ((runLoop st events).1.consecutiveErrors = max_consecutive_errors →
      (runLoop st events).2 = true) := by
  induction events with
  | nil =>
    intro st h
    exact ⟨Nat.le_of_lt h, fun he => absurd he (Nat.ne_of_lt h)⟩
  | cons ev rest ih =>
    intro st h
    cases ev with
    | data chunk =>
      by_cases hc : has_complete_reading (st.buffer ++ chunk) = true
      · obtain ⟨tok, htok⟩ := extract_weight_reading_isSome_of_has _ hc
        simp only [runLoop, loopStep, hc, htok, if_true]
        exact ih _ (by simp [max_consecutive_errors])
      · have hc' : has_complete_reading (st.buffer ++ chunk) = false := by
          simpa using hc
        simp only [runLoop, loopStep, hc', if_false, Bool.false_eq_true]
        exact ih _ h
    | noData =>
      simp only [runLoop, loopStep]
      exact ih st h
    | serialError =>
      by_cases hf : st.consecutiveErrors + 1 ≥ max_consecutive_errors
      · simp only [runLoop, loopStep, if_pos hf]
        refine ⟨?_, fun _ => by trivial⟩
        show st.consecutiveErrors + 1 ≤ max_consecutive_errors
        omega
      · simp only [runLoop, loopStep, if_neg hf]
        refine ih _ ?_
        show st.consecutiveErrors + 1 < max_consecutive_errors
        omega
    | otherError =>
      by_cases hf : st.consecutiveErrors + 1 ≥ max_consecutive_errors
      · simp only [runLoop, loopStep, if_pos hf]
        refine ⟨?_, fun _ => by trivial⟩
        show st.consecutiveErrors + 1 ≤ max_consecutive_errors
        omega
      · simp only [runLoop, loopStep, if_neg hf]
        refine ih _ ?_
        show st.consecutiveErrors + 1 < max_consecutive_errors
        omega

/-- C8 counterexample: when the fifth consecutive serial error makes the loop
terminate fatally, the cycle does NOT invoke the recovery procedure
`restart_serial_connection`: the thread just stops; recovery is only invoked
from the HTTP request path. -/
theorem loop_fatal_no_recovery_counterexample :
    (loopStep ⟨[], 4⟩ LoopEvent.serialError).action = LoopAction.fatalStop ∧
    (loopStep ⟨[], 4⟩ LoopEvent.serialError).triggersRecovery = false ∧
    ¬((loopStep ⟨[], 4⟩ LoopEvent.serialError).triggersRecovery = true) := by
  refine ⟨by decide, by decide, by decide⟩

/-- C8 (amended): in the continuous loop a single I/O error below the
threshold is not fatal (the counter increments and the cycle retries after
the backoff sleep); a cycle that processes a complete reading resets the
counter to zero; a data cycle without a complete reading is dropped silently
(counter unchanged, loop continues); once the consecutive error count reaches
the threshold of 5 the cycle terminates the loop fatally, without invoking
the recovery procedure itself; and the loop never keeps reading past the
threshold. -/
theorem continuous_loop_error_semantics (st : LoopState) :
    (st.consecutiveErrors + 1 < max_consecutive_errors →
      (loopStep st LoopEvent.serialError).action = LoopAction.backoff ∧
      (loopStep st LoopEvent.serialError).state.consecutiveErrors
        = st.consecutiveErrors + 1) ∧
    (∀ chunk, has_complete_reading (st.buffer ++ chunk) = true →
      (loopStep st (LoopEvent.data chunk)).state.consecutiveErrors = 0) ∧
    (∀ chunk, has_complete_reading (st.buffer ++ chunk) = false →
      (loopStep st (LoopEvent.data chunk)).state.consecutiveErrors
        = st.consecutiveErrors ∧
      (loopStep st (LoopEvent.data chunk)).action = LoopAction.cont) ∧
    (max_consecutive_errors ≤ st.consecutiveErrors + 1 →
      (loopStep st LoopEvent.serialError).action = LoopAction.fatalStop ∧
      (loopStep st LoopEvent.serialError).triggersRecovery = false) ∧
    (∀ events, st.consecutiveErrors < max_consecutive_errors →
      (runLoop st events).1.consecutiveErrors ≤ max_consecutive_errors ∧
      ((runLoop st events).1.consecutiveErrors = max_consecutive_errors →
        (runLoop st events).2 = true)) := by
  refine ⟨?_, ?_, ?_, ?_, ?_⟩
  · intro h
    have hlt : ¬(st.consecutiveErrors + 1 ≥ max_consecutive_errors) := by omega
    simp only [loopStep, if_neg hlt]
    exact ⟨by trivial, by trivial⟩
  · intro chunk hc
    obtain ⟨tok, htok⟩ := extract_weight_reading_isSome_of_has _ hc
    simp only [loopStep, hc, htok, if_true]
  · intro chunk hc
    simp only [loopStep, hc, if_false, Bool.false_eq_true]
    exact ⟨by trivial, by trivial⟩
  · intro h
    simp only [loopStep, if_pos h]
    exact ⟨by trivial, by trivial⟩
  · intro events h
    exact runLoop_error_bound events st h

/-- Witness for C8: from a fresh state one serial error backs off with the
counter at one, and from a state with four accumulated errors the fifth error
stops the loop fatally without invoking recovery. -/
theorem continuous_loop_error_semantics_witness :
    ((0 : ℕ) + 1 < max_consecutive_errors ∧
      (loopStep ⟨[], 0⟩ LoopEvent.serialError).action = LoopAction.backoff ∧
      (loopStep ⟨[], 0⟩ LoopEvent.serialError).state.consecutiveErrors
        = 0 + 1) ∧
    (max_consecutive_errors ≤ (4 : ℕ) + 1 ∧
      (loopStep ⟨['x'], 4⟩ LoopEvent.serialError).action
        = LoopAction.fatalStop ∧
      (loopStep ⟨['x'], 4⟩ LoopEvent.serialError).triggersRecovery = false) :=
  ⟨⟨by decide,
      ((continuous_loop_error_semantics ⟨[], 0⟩).1 (by decide)).1,
      ((continuous_loop_error_semantics ⟨[], 0⟩).1 (by decide)).2⟩,
    ⟨by decide,
      ((continuous_loop_error_semantics ⟨['x'], 4⟩).2.2.2.1 (by decide)).1,
      ((continuous_loop_error_semantics ⟨['x'], 4⟩).2.2.2.1 (by decide)).2⟩⟩

/-- C9: the health check reports healthy exactly when the port handle is
open, the background thread is alive and the fresh bounded-read probe
returned a reading; degraded exactly when the handle is open but the thread
check or the probe fails; unhealthy exactly when the handle is not open. -/
theorem health_check_status_levels (port : SerialPort) (threadAlive : Bool)
    (timeout delta : ℕ) (script : List PollEvent) :
    (health_check port threadAlive timeout delta script = HealthStatus.healthy
      ↔ (port.isOpen = true ∧ threadAlive = true ∧
          scale_probe port timeout delta script = true)) ∧
    (health_check port threadAlive timeout delta script = HealthStatus.degraded
      ↔ (port.isOpen = true ∧
          ¬(threadAlive = true ∧
            scale_probe port timeout delta script = true))) ∧
    (health_check port threadAlive timeout delta script
        = HealthStatus.unhealthy
      ↔ port.isOpen = false) := by
  unfold health_check
  by_cases ho : port.isOpen = true <;>
    by_cases ht : threadAlive = true <;>
      by_cases hp : scale_probe port timeout delta script = true <;>
        simp_all

/-- C10: with the port open at entry the bounded read never raises: its
result is always a normal return regardless of faults in the polling script;
with the port closed at entry it raises the serial error; and a fault during
one polling iteration is swallowed, polling continuing unchanged on the
remaining iterations. -/
theorem read_timeout_fault_handling (port : SerialPort) (timeout delta : ℕ)
    (script : List PollEvent) :
    (port.isOpen = true →
      ∃ r, (read_from_serial_with_timeout port timeout delta script).result
        = Except.ok r) ∧
    (port.isOpen = false →
      (read_from_serial_with_timeout port timeout delta script).result
        = Except.error "Serial port not available or not open") ∧
    (∀ (n : ℕ) (buffer : List Char) (rest : List PollEvent),
      pollLoop (n + 1) buffer (PollEvent.fault :: rest)
        = ((pollLoop n buffer rest).1, (pollLoop n buffer rest).2 + 1)) := by
  refine ⟨?_, ?_, ?_⟩
  · intro h
    unfold read_from_serial_with_timeout
    rw [if_pos h]
    exact ⟨_, rfl⟩
  · intro h
    unfold read_from_serial_with_timeout
    rw [if_neg (by simp [h])]
  · intro n buffer rest
    rfl

/-- Witness for C10: with an open port and a script of one fault followed by
a valid reading, the bounded read returns normally (no raised error), and
with a closed port it raises. -/
theorem read_timeout_fault_handling_witness :
    ((SerialPort.mk true 2 9600).isOpen = true ∧
      ∃ r, (read_from_serial_with_timeout ⟨true, 2, 9600⟩ 5 1
        [PollEvent.fault, PollEvent.data ['+', '1', '2', '0', 'B']]).result
          = Except.ok r) ∧
    ((SerialPort.mk false 2 9600).isOpen = false ∧
      (read_from_serial_with_timeout ⟨false, 2, 9600⟩ 5 1 []).result
        = Except.error "Serial port not available or not open") :=
  ⟨⟨by decide,
      (read_timeout_fault_handling ⟨true, 2, 9600⟩ 5 1
        [PollEvent.fault, PollEvent.data ['+', '1', '2', '0', 'B']]).1
        (by decide)⟩,
    ⟨by decide,
      (read_timeout_fault_handling ⟨false, 2, 9600⟩ 5 1 []).2.1 (by decide)⟩⟩
